import Mathlib

/-!
Shallow embedding of the Merkle-tree core of the `avlgo` repository
(`avlgo/data_structures/merkle/merkle_tree.py`,
`avlgo/data_structures/merkle/sparse_merkle_tree.py`,
`avlgo/data_structures/utils.py`) and proofs about it.

Modelling conventions:

* Python `bytes` values are modelled as `ByteStr := List Nat`.
* The composite `hash_alg(data).hexdigest().encode()`, which is the only way
  both files ever use the hash algorithm, is modelled as a single function
  `H : ByteStr → ByteStr`, a parameter of every definition.
* Python `None` is modelled by `Option`, fallible code by `Except PyErr`.
* `_MerkleNode.update_child` (merkle_tree.py lines 229-230) assigns
  `max(self.left.height, self.right.height) + 1,` — note the trailing
  comma — so `height` and `leaves_counter` dynamically become 1-tuples.
  To capture this the two fields hold a `PyVal` (Python int-or-tuple),
  with the arithmetic of `+`, `max`, `**` and `==` on such values
  translated from Python semantics (`TypeError` on mixed operands).
-/

/-- Python `bytes`, one `Nat` per byte. -/
abbrev ByteStr := List Nat

/-- `SparseMerkleTree.NON_EXISTING_LEAF_DATA = b'0'` (ASCII 48). -/
def b0 : ByteStr := [48]

/-- `SparseMerkleTree.EXISTING_LEAF_DATA = b'1'` (ASCII 49). -/
def b1 : ByteStr := [49]

/-- `Direction` enum from `avlgo/data_structures/utils.py` (LEFT = 0, RIGHT = 1). -/
inductive Direction where
  | LEFT : Direction
  | RIGHT : Direction
deriving DecidableEq, Repr

/-- `Direction.opposite` from `avlgo/data_structures/utils.py`. -/
def Direction.opposite : Direction → Direction
  | .LEFT => .RIGHT
  | .RIGHT => .LEFT

/-- The Python exceptions the embedded code can raise. -/
inductive PyErr where
  | typeError : PyErr
  | attributeError : PyErr
  | runtimeError : PyErr
  | recursionError : PyErr
  | indexError : PyErr
  | invalidChildError : PyErr
  | invalidDirectionError : PyErr
  | internalNodeCannotBeMarked : PyErr
deriving DecidableEq, Repr

/-- A dynamically typed Python value: an `int` or a tuple of such values.
`_MerkleNode.height` / `leaves_counter` start as ints but become 1-tuples
after `update_child` runs (trailing commas in the source). -/
inductive PyVal where
  | vint : Int → PyVal
  | vtup : List PyVal → PyVal

/-- Python `==` on such values (`int == tuple` is `False`, not an error). -/
def pyEq : PyVal → PyVal → Bool
  | .vint a, .vint b => a == b
  | .vtup a, .vtup b => pyEqList a b
  | _, _ => false
where
  pyEqList : List PyVal → List PyVal → Bool
  | [], [] => true
  | x :: xs, y :: ys => pyEq x y && pyEqList xs ys
  | _, _ => false

mutual
/-- Python `<` on such values (`int < tuple` raises `TypeError`). -/
def pyLt : PyVal → PyVal → Except PyErr Bool
  | .vint a, .vint b => .ok (decide (a < b))
  | .vtup a, .vtup b => pyLtList a b
  | _, _ => .error .typeError

/-- Python's lexicographic `<` on tuples: skip `==` elements, then compare
the first differing pair; ties broken by length. -/
def pyLtList : List PyVal → List PyVal → Except PyErr Bool
  | [], [] => .ok false
  | [], _ :: _ => .ok true
  | _ :: _, [] => .ok false
  | x :: xs, y :: ys => if pyEq x y then pyLtList xs ys else pyLt x y
end

/-- Python `max(a, b)`: returns `b` only when `b > a`. -/
def pyMax (a b : PyVal) : Except PyErr PyVal := do
  if (← pyLt a b) then pure b else pure a

/-- Python `+` on such values (int addition / tuple concatenation). -/
def pyAdd : PyVal → PyVal → Except PyErr PyVal
  | .vint a, .vint b => .ok (.vint (a + b))
  | .vtup a, .vtup b => .ok (.vtup (a ++ b))
  | _, _ => .error .typeError

/-- Python `2 ** v` (`_MerkleNode.capacity`); `2 ** tuple` raises `TypeError`. -/
def pyPow2 : PyVal → Except PyErr PyVal
  | .vint n => .ok (.vint (2 ^ n.toNat))
  | .vtup _ => .error .typeError

/-!
## Dense Merkle tree (`avlgo/data_structures/merkle/merkle_tree.py`)

The Python object graph (nodes with mutable `parent` / `left` / `right`
references) is modelled as an arena: a list of node records addressed by
index, each record storing its parent's index, exactly as the repository
spec suggests for ownership-based ports.  Object identity (`==` between
nodes, which Python resolves by identity since `_MerkleNode` defines no
`__eq__`) becomes index equality.  Walks along `parent` references are
fuelled by the arena size; exhausted fuel models Python's
`RecursionError` on a cyclic parent chain.
-/

/-- `_MerkleNode`: `data`, `data_hash = hash_alg(data).hexdigest().encode()`,
`height`, `leaves_counter` (both `PyVal`, see above), plus the
`BinaryTreeNode` references `parent` / `left` / `right` as arena indices. -/
structure MNode where
  data : ByteStr
  data_hash : ByteStr
  height : PyVal
  leaves_counter : PyVal
  parent : Option Nat
  left : Option Nat
  right : Option Nat

/-- `MerkleTree`: the arena of nodes, `_root` and `_leaves` (indices). -/
structure MerkleTreeSt where
  nodes : List MNode
  root : Option Nat
  leaves : List Nat

namespace MerkleTree

/-- Dereference a node index (an absent index cannot occur in code
translated from the source; it maps to Python's `IndexError`). -/
def getNode (st : MerkleTreeSt) (i : Nat) : Except PyErr MNode :=
  match st.nodes[i]? with
  | some n => .ok n
  | none => .error .indexError

/-- Replace the node stored at index `i`. -/
def setNode (st : MerkleTreeSt) (i : Nat) (n : MNode) : MerkleTreeSt :=
  { st with nodes := st.nodes.set i n }

/-- `_MerkleNode.capacity = 2 ** self.height`. -/
def capacity (n : MNode) : Except PyErr PyVal :=
  pyPow2 n.height

/-- `_MerkleNode.is_full = self.capacity == self.leaves_counter`. -/
def is_full (n : MNode) : Except PyErr Bool := do
  pure (pyEq (← capacity n) n.leaves_counter)

/-- `_MerkleNode.create_leaf(data, hash_alg)`: height 0, one leaf,
appended to the arena; returns its index. -/
def create_leaf (H : ByteStr → ByteStr) (st : MerkleTreeSt) (data : ByteStr) :
    MerkleTreeSt × Nat :=
  ({ st with nodes := st.nodes ++
      [⟨data, H data, .vint 0, .vint 1, none, none, none⟩] },
   st.nodes.length)

/-- `_MerkleNode.create_node(left, right, hash_alg)`: data is the
concatenation of the children's digests; height/leaf count derived with
Python `max` / `+`; both children's `parent` is set to the new node. -/
def create_node (H : ByteStr → ByteStr) (st : MerkleTreeSt) (li ri : Nat) :
    Except PyErr (MerkleTreeSt × Nat) := do
  let l ← getNode st li
  let r ← getNode st ri
  let h ← pyAdd (← pyMax l.height r.height) (.vint 1)
  let c ← pyAdd l.leaves_counter r.leaves_counter
  let newIdx := st.nodes.length
  let st := { st with nodes := st.nodes ++
      [⟨l.data_hash ++ r.data_hash, H (l.data_hash ++ r.data_hash), h, c,
        none, some li, some ri⟩] }
  let st := setNode st li { l with parent := some newIdx }
  let st := setNode st ri { r with parent := some newIdx }
  pure (st, newIdx)

/-- `_MerkleNode.update_child(new_child, old_child)`, lines 216-235 of
`merkle_tree.py`, including the buggy trailing commas of lines 229-230
that turn `height` and `leaves_counter` into Python 1-tuples, and the
recursive propagation `self.parent.update_child(self, self)`. -/
def update_child (H : ByteStr → ByteStr) :
    Nat → MerkleTreeSt → Nat → Nat → Nat → Except PyErr MerkleTreeSt
  | 0, _, _, _, _ => .error .recursionError
  | fuel + 1, st, selfIdx, newChild, oldChild => do
    let n ← getNode st selfIdx
    let n :=
      if n.right == some oldChild then { n with right := some newChild }
      else { n with left := some newChild }
    -- `self.left.height` / `self.right.height`: `None` would raise
    let li ← match n.left with
      | some i => pure i
      | none => .error .attributeError
    let ri ← match n.right with
      | some i => pure i
      | none => .error .attributeError
    let l ← getNode st li
    let r ← getNode st ri
    let h ← pyAdd (← pyMax l.height r.height) (.vint 1)
    let c ← pyAdd l.leaves_counter r.leaves_counter
    let n := { n with
      height := .vtup [h],          -- trailing comma in the source
      leaves_counter := .vtup [c],  -- trailing comma in the source
      data := l.data_hash ++ r.data_hash,
      data_hash := H (l.data_hash ++ r.data_hash) }
    let st := setNode st selfIdx n
    match n.parent with
    | some p => update_child H fuel st p selfIdx selfIdx
    | none => pure st

/-- `MerkleTree._find_split_node(node)`: descend through `.right` while the
node is full.  A `None` argument would raise `AttributeError`
(`None.is_full`); fuel exhaustion models `RecursionError`. -/
def find_split_node (st : MerkleTreeSt) :
    Nat → Option Nat → Except PyErr Nat
  | 0, _ => .error .recursionError
  | _, none => .error .attributeError
  | fuel + 1, some i => do
    let n ← getNode st i
    if (← is_full n) then pure i
    else find_split_node st fuel n.right

/-- `MerkleTree._split_node(split_node, data)`, lines 128-150. -/
def split_node (H : ByteStr → ByteStr) (st : MerkleTreeSt) (splitIdx : Nat)
    (data : ByteStr) : Except PyErr (MerkleTreeSt × Nat × Nat) := do
  let parent_node := (← getNode st splitIdx).parent
  let (st, newIdx) := create_leaf H st data
  let (st, mergeIdx) ← create_node H st splitIdx newIdx
  -- `if split_node.parent:` — true, create_node just set it to merge_node
  let st ← (do
    let sn ← getNode st splitIdx
    match sn.parent with
    | some p => update_child H (st.nodes.length + 1) st p splitIdx mergeIdx
    | none => pure st)
  -- `split_node.parent = merge_node`
  let st ← (do
    let sn ← getNode st splitIdx
    pure (setNode st splitIdx { sn with parent := some mergeIdx }))
  if st.root == some splitIdx then
    pure ({ st with root := some mergeIdx }, mergeIdx, newIdx)
  else
    match parent_node with
    | some p => do
      let st ← update_child H (st.nodes.length + 1) st p mergeIdx splitIdx
      pure (st, mergeIdx, newIdx)
    | none => .error .attributeError  -- `None.update_child(...)`

/-- `MerkleTree.add_node(data)`, lines 25-44: returns the new state and the
inserted leaf id. -/
def add_node (H : ByteStr → ByteStr) (st : MerkleTreeSt) (data : ByteStr) :
    Except PyErr (MerkleTreeSt × Nat) := do
  if st.root == none then
    let (st, newIdx) := create_leaf H st data
    let st := { st with root := some newIdx, leaves := st.leaves ++ [newIdx] }
    pure (st, st.leaves.length - 1)
  else do
    let splitIdx ← find_split_node st (st.nodes.length + 1) st.root
    let (st, _, newIdx) ← split_node H st splitIdx data
    let st := { st with leaves := st.leaves ++ [newIdx] }
    pure (st, st.leaves.length - 1)

/-- `MerkleTree.tree_digest`: `root.data_hash`, or Python `None` when empty. -/
def tree_digest (st : MerkleTreeSt) : Except PyErr (Option ByteStr) :=
  match st.root with
  | none => .ok none
  | some r => do pure (some (← getNode st r).data_hash)

/-- `LeafProof` named tuple (the `hash_alg` member is the `H` parameter). -/
structure LeafProof where
  tree_digest : Option ByteStr
  hashes : List ByteStr
  directions : List Direction
deriving DecidableEq, Repr

/-- `BinaryTreeNode.child_sibling(child)` on arena indices. -/
def child_sibling (n : MNode) (child : Nat) : Except PyErr (Option Nat) :=
  if n.left == some child then .ok n.right
  else if n.right == some child then .ok n.left
  else .error .invalidChildError

/-- `BinaryTreeNode.child_direction(child)` on arena indices. -/
def child_direction (n : MNode) (child : Nat) : Except PyErr Direction :=
  if n.left == some child then .ok .LEFT
  else if n.right == some child then .ok .RIGHT
  else .error .invalidChildError

/-- The `while node_scanner.parent:` walk of `proof_leaf`, collecting each
sibling's digest and direction bottom-up. -/
def proof_walk (st : MerkleTreeSt) :
    Nat → Nat → List ByteStr → List Direction →
    Except PyErr (List ByteStr × List Direction)
  | 0, _, _, _ => .error .recursionError
  | fuel + 1, idx, hs, ds => do
    let n ← getNode st idx
    match n.parent with
    | none => pure (hs, ds)
    | some p => do
      let pn ← getNode st p
      let sib ← child_sibling pn idx
      let sibIdx ← match sib with
        | some s => pure s
        | none => .error .attributeError  -- `None.data_hash`
      let sibN ← getNode st sibIdx
      -- `sibling_child.direction` = `self.parent.child_direction(self)`
      let dir ← match sibN.parent with
        | some pp => do child_direction (← getNode st pp) sibIdx
        | none => .error .attributeError
      proof_walk st fuel p (hs ++ [sibN.data_hash]) (ds ++ [dir])

/-- `MerkleTree.proof_leaf(leaf_id)`, lines 46-77.  The range check of
lines 58-59 is `leaf_id < 0 or leaf_id >= len(self.leaves)`; it raises
`RuntimeError`.  The method performs no assignment to the tree. -/
def proof_leaf (st : MerkleTreeSt) (leaf_id : Int) :
    Except PyErr LeafProof := do
  if leaf_id < 0 || (st.leaves.length : Int) ≤ leaf_id then
    .error .runtimeError
  else do
    let start ← match st.leaves[leaf_id.toNat]? with
      | some i => pure i
      | none => .error .indexError
    let (hs, ds) ← proof_walk st (st.nodes.length + 1) start [] []
    pure ⟨← tree_digest st, hs, ds⟩

/-- `MerkleTree.validate_proof(tree_digest, data, leaf_proof)`, lines
79-106: recompute the hash chain and compare byte strings. -/
def validate_proof (H : ByteStr → ByteStr) (td : Option ByteStr)
    (data : ByteStr) (pf : LeafProof) : Bool :=
  if pf.tree_digest != td then false
  else
    let vh := (pf.hashes.zip pf.directions).foldl
      (fun vh p =>
        if p.2 == Direction.RIGHT then H (vh ++ p.1) else H (p.1 ++ vh))
      (H data)
    some vh == td

/-- A fresh `MerkleTree()`. -/
def mt_init : MerkleTreeSt := ⟨[], none, []⟩

/-- Run a sequence of `add_node` calls on a fresh tree. -/
def add_seq (H : ByteStr → ByteStr) (ds : List ByteStr) :
    Except PyErr MerkleTreeSt :=
  ds.foldlM (fun st d => do pure (← add_node H st d).1) mt_init

end MerkleTree

/-!
## Sparse Merkle tree (`avlgo/data_structures/merkle/sparse_merkle_tree.py`)

The node graph under `_root` is an inductive tree; `SNode.nil` is a
Python `None` child slot.  `_SparseMerkleNode.update_data` climbs
`parent` references to recompute every ancestor digest after a mark; the
recursion `mark_go` below performs the same recomputations while
unwinding its descent, visiting the same nodes in the same order, so no
parent references are needed.  A digest (hexadecimal text in Python) is
represented by its integer value `v = int(digest, 16)`, the only thing
`_tree_navigator` ever reads from it.
-/

/-- A toy hash function used to evaluate the embedding on concrete
inputs; all theorems about hashing hold for an arbitrary `H`. -/
def tH : ByteStr → ByteStr := fun bs => 104 :: bs

/-- A hash algorithm as the embedded code sees it: the composite
digest function plus hashlib's `block_size` / `digest_size` attributes
(in bytes).  Only `block_size` is ever read by the repository
(`get_hash_size` in `utils.py`). -/
structure HashAlg where
  hashF : ByteStr → ByteStr
  block_size : Nat
  digest_size : Nat

/-- `get_hash_size(hash_alg) = 8 * hash_alg().block_size` (utils.py
lines 4-10). -/
def get_hash_size (a : HashAlg) : Nat := 8 * a.block_size

/-- `hashlib.sha256`: block size 64 bytes (512-bit blocks), digest size
32 bytes (256-bit output) per FIPS 180-4; the digest function itself is
irrelevant to the size claims and is the toy hash. -/
def sha256 : HashAlg := ⟨tH, 64, 32⟩

/-- `_SparseMerkleNode`: `data` (Python `None` when a freshly created
non-dummy placeholder has not been filled yet), `height`, `is_dummy`,
and the two child slots. -/
inductive SNode where
  | nil : SNode
  | node (data : Option ByteStr) (height : Nat) (is_dummy : Bool)
      (left right : SNode) : SNode
deriving DecidableEq, Repr

namespace SparseMerkleTree

/-- `_generate_dummy_hashes`: entry 0 is `NON_EXISTING_LEAF_DATA = b'0'`;
entry `h+1` is `hash_alg(2 * dummy_hashes[h])` where `2 * bytes` is
self-concatenation.  `dummy_hash H h` is entry `h` of the cached table. -/
def dummy_hash (H : ByteStr → ByteStr) : Nat → ByteStr
  | 0 => b0
  | h + 1 => H (dummy_hash H h ++ dummy_hash H h)

/-- `bin(v)[2:]` read least-significant-bit first ('0' ↦ LEFT,
'1' ↦ RIGHT); the first argument is fuel (`v` itself suffices). -/
def nat_bin_rev : Nat → Nat → List Direction
  | 0, _ => []
  | fuel + 1, v =>
    if v == 0 then []
    else (if v % 2 == 1 then Direction.RIGHT else Direction.LEFT) ::
      nat_bin_rev fuel (v / 2)

/-- `digest_bin = bin(digest_value)[2:]` as directions, most significant
bit first; `bin(0)[2:] = "0"`. -/
def digest_bin (v : Nat) : List Direction :=
  if v == 0 then [Direction.LEFT] else (nat_bin_rev v v).reverse

/-- The full direction sequence of `_tree_navigator` (lines 155-173):
`digest_bin` right-padded with '0' (= LEFT) to `hash_size` characters. -/
def tree_navigator_bits (v B : Nat) : List Direction :=
  digest_bin v ++
    List.replicate (B - (digest_bin v).length) Direction.LEFT

/-- `BinaryTreeNode.child(direction)` given the two child slots. -/
def pick (l r : SNode) : Direction → SNode
  | .LEFT => l
  | .RIGHT => r

/-- Store a child back into the slot named by the direction. -/
def put (l r : SNode) : Direction → SNode → SNode × SNode
  | .LEFT, c => (c, r)
  | .RIGHT, c => (l, c)

/-- `node.data`; `None.data` raises `AttributeError`. -/
def dataOf : SNode → Except PyErr (Option ByteStr)
  | .nil => .error .attributeError
  | .node d _ _ _ _ => .ok d

/-- `_SparseMerkleNode.mark()` (lines 235-239): marking is legal only on
an absolute leaf (`height == 0`); otherwise
`InternalNodeCannotBeMarkedException`. -/
def node_mark : SNode → Except PyErr SNode
  | .nil => .error .attributeError
  | .node _ h dm l r =>
    if h == 0 then .ok (.node (some b1) h dm l r)
    else .error .internalNodeCannotBeMarked

/-- One step of `_SparseMerkleNode.update_data(hash_alg)` (lines
241-246): `children_data = self.left.data + self.right.data` (an absent
child raises `AttributeError`, a `None` data raises `TypeError`), then
`self.data = hash(children_data)`.  The source's recursion into
`self.parent` is realized by `mark_go` calling this at every level while
unwinding. -/
def update_data (H : ByteStr → ByteStr) : SNode → Except PyErr SNode
  | .nil => .error .attributeError
  | .node _ h dm l r => do
    let ld ← dataOf l
    let rd ← dataOf r
    let cd ← match ld, rd with
      | some a, some b => pure (a ++ b)
      | _, _ => (.error .typeError : Except PyErr ByteStr)
    pure (.node (some (H cd)) h dm l r)

/-- `_SparseMerkleNode.create_node(parent, is_dummy, dummy_hashes)`
(lines 220-233): a child one level below the parent's height, holding
the cached dummy digest when `is_dummy` and `None` otherwise. -/
def create_child (H : ByteStr → ByteStr) (parent_height : Nat) (dm : Bool) :
    SNode :=
  .node (if dm then some (dummy_hash H (parent_height - 1)) else none)
    (parent_height - 1) dm .nil .nil

/-- `SparseMerkleTree.mark(digest)` (lines 40-65) over the navigator's
direction list: whenever the current node is a leaf of the
materialization, create both children (`right` with
`is_dummy = (direction != RIGHT)`, `left` with
`is_dummy = (direction != LEFT)`); descend; `mark()` the final child
(one level below the last yielded node); recompute every path node's
digest while unwinding (`update_data`'s parent recursion). -/
def mark_go (H : ByteStr → ByteStr) : SNode → List Direction → Except PyErr SNode
  | .nil, _ => .error .attributeError
  | .node _ _ _ _ _, [] => .error .attributeError
  | .node d h dm l r, dir :: rest =>
    let (l', r') :=
      match l, r with
      | .nil, .nil =>
        (create_child H h (dir != Direction.LEFT),
         create_child H h (dir != Direction.RIGHT))
      | _, _ => (l, r)
    match rest with
    | [] => do
      let c' ← node_mark (pick l' r' dir)
      let (l'', r'') := put l' r' dir c'
      update_data H (.node d h dm l'' r'')
    | _ :: _ => do
      let c' ← mark_go H (pick l' r' dir) rest
      let (l'', r'') := put l' r' dir c'
      update_data H (.node d h dm l'' r'')

/-- `SparseMerkleTree._SparseMerkleNode.create_root` /
`SparseMerkleTree.__init__`: a dummy root of height `hash_size` holding
the cached dummy digest for that height. -/
def create_root (H : ByteStr → ByteStr) (B : Nat) : SNode :=
  .node (some (dummy_hash H B)) B true .nil .nil

/-- A fresh `SparseMerkleTree(hash_alg)`. -/
def smt_init (a : HashAlg) : SNode := create_root a.hashF (get_hash_size a)

/-- `SparseMerkleTree.mark(digest)` for the digest of value `v` on a
tree of hash size `B`. -/
def mark (H : ByteStr → ByteStr) (B : Nat) (t : SNode) (v : Nat) :
    Except PyErr SNode :=
  mark_go H t (tree_navigator_bits v B)

/-- Run a sequence of `mark` calls on a fresh tree. -/
def mark_seq (H : ByteStr → ByteStr) (B : Nat) (ds : List Nat) :
    Except PyErr SNode :=
  ds.foldlM (fun t v => mark H B t v) (create_root H B)

/-- `SparseMerkleTree.is_marked(digest)` (lines 67-83): drain the
navigator, look at the last yielded node's chosen child; `False` when it
is absent, otherwise whether its data is the EXISTING sentinel. -/
def is_marked_go : SNode → List Direction → Bool
  | .nil, _ => false
  | .node _ _ _ _ _, [] => false
  | .node _ _ _ l r, dir :: rest =>
    match rest with
    | [] =>
      match pick l r dir with
      | .nil => false
      | .node cd _ _ _ _ => cd == some b1
    | _ :: _ =>
      match pick l r dir with
      | .nil => false
      | c => is_marked_go c rest

/-- `SparseMerkleTree.is_marked` on a digest value. -/
def is_marked (t : SNode) (v B : Nat) : Bool :=
  is_marked_go t (tree_navigator_bits v B)

/-- `SparseMerkleTree.proof(digest)` (lines 85-112): walk the navigator
until the first materialization leaf (`break`); at every entered node
collect the digest and direction of the sibling of the child being
entered; `insert(0, ...)` makes the list deepest-first.  Entries pair
`sibling.data` (which the source reads without a `None` check) with
`sibling.direction` (the opposite of the navigation direction). -/
def proof_go : SNode → List Direction →
    Except PyErr (List (Option ByteStr × Direction))
  | .nil, _ => .ok []
  | .node _ _ _ _ _, [] => .ok []
  | .node _ _ _ l r, dir :: rest =>
    match l, r with
    | .nil, .nil => .ok []
    | _, _ => do
      let sd ← dataOf (pick l r dir.opposite)
      let ps ← proof_go (pick l r dir) rest
      pure (ps ++ [(sd, dir.opposite)])

/-- `SparseMerkleTree.proof` on a digest value; the result models
`zip(proof.hashes, proof.directions)` (the two lists always have equal
length by construction). -/
def proof (t : SNode) (v B : Nat) :
    Except PyErr (List (Option ByteStr × Direction)) :=
  proof_go t (tree_navigator_bits v B)

/-- The `for node_hash, direction in zip(...)` replay loop shared by the
validators: fold each sibling into the running digest on the side named
by the direction (a `None` hash raises `TypeError` in `bytes + None`). -/
def vfold (H : ByteStr → ByteStr) :
    ByteStr → List (Option ByteStr × Direction) → Except PyErr ByteStr
  | vh, [] => .ok vh
  | vh, (nh, dir) :: rest => do
    let nhv ← match nh with
      | some x => pure x
      | none => (.error .typeError : Except PyErr ByteStr)
    vfold H (if dir == Direction.RIGHT then H (vh ++ nhv) else H (nhv ++ vh))
      rest

/-- `SparseMerkleTree.validate(tree_digest, is_marked, proof)` (lines
114-141): the running digest starts from the EXISTING sentinel when
`is_marked`, else from the cached dummy digest at height
`hash_size - len(proof.hashes)`; replay and compare with `tree_digest`. -/
def validate (H : ByteStr → ByteStr) (B : Nat) (td : Option ByteStr)
    (is_m : Bool) (pf : List (Option ByteStr × Direction)) :
    Except PyErr Bool := do
  let start := if is_m then b1 else dummy_hash H (B - pf.length)
  let vh ← vfold H start pf
  pure (some vh == td)

/-- `SparseMerkleTree.tree_digest = self._root.data`. -/
def tree_digest : SNode → Option ByteStr
  | .nil => none
  | .node d _ _ _ _ => d

/-- The height stored at the root of a subtree. -/
def root_height : SNode → Nat
  | .nil => 0
  | .node _ h _ _ _ => h

/-- The node reached by following a direction list through the
materialized structure (`nil` once the walk leaves it). -/
def subtree_at : SNode → List Direction → SNode
  | n, [] => n
  | .nil, _ :: _ => .nil
  | .node _ _ _ l r, dir :: rest => subtree_at (pick l r dir) rest

/-- The digest buried in a node (`[]` for `nil` or `None`; only read
under `wf`, which rules those cases out). -/
def data_val : SNode → ByteStr
  | .node (some x) _ _ _ _ => x
  | _ => []

/-- Well-formedness of a materialized subtree at height `k`: stored
heights match, children come in pairs, a leaf of the materialization is
either a dummy holding its cached digest or a marked height-0 leaf
holding the EXISTING sentinel, and every internal digest is the hash of
its children's digests.  Every tree reachable by `mark` calls from a
fresh tree satisfies this (proved below). -/
inductive Wf (H : ByteStr → ByteStr) : SNode → Nat → Prop
  | dummy_leaf (k : Nat) (dm : Bool) :
      Wf H (.node (some (dummy_hash H k)) k dm .nil .nil) k
  | marked_leaf (dm : Bool) :
      Wf H (.node (some b1) 0 dm .nil .nil) 0
  | internal {l r : SNode} {k : Nat} (dm : Bool)
      (hl : Wf H l k) (hr : Wf H r k) :
      Wf H (.node (some (H (data_val l ++ data_val r))) (k + 1) dm l r)
        (k + 1)

/-- The freshly materialized path child: non-dummy, no data yet. -/
def placeholder (h : Nat) : SNode := .node none h false .nil .nil

/-- Extract the tree from a successful result (used to name concrete
witnesses). -/
def okD : Except PyErr SNode → SNode
  | .ok t => t
  | .error _ => .nil

/-- Trees reachable from a fresh sparse tree by marking valid digests
(values below `2 ^ hash_size`). -/
inductive Reach (H : ByteStr → ByteStr) (B : Nat) : SNode → Prop
  | init : Reach H B (create_root H B)
  | mark {t t' : SNode} {v : Nat} : Reach H B t → v < 2 ^ B →
      mark H B t v = .ok t' → Reach H B t'

end SparseMerkleTree

namespace MerkleTree

/-- The tree after a successful `add_node` (identity on failure); used to
name the concrete reachable dense trees. -/
def step_tree (H : ByteStr → ByteStr) (st : MerkleTreeSt) (d : ByteStr) :
    MerkleTreeSt :=
  match add_node H st d with
  | .ok (t, _) => t
  | .error _ => st

/-- The single-leaf dense tree holding `d`. -/
def one_leaf (H : ByteStr → ByteStr) (d : ByteStr) : MerkleTreeSt :=
  step_tree H mt_init d

/-- The two-leaf dense tree holding `d1`, `d2`. -/
def two_leaves (H : ByteStr → ByteStr) (d1 d2 : ByteStr) : MerkleTreeSt :=
  step_tree H (one_leaf H d1) d2

/-- Dense trees reachable from a fresh `MerkleTree()` by successful
`add_node` calls. -/
inductive DReach (H : ByteStr → ByteStr) : MerkleTreeSt → Prop
  | init : DReach H mt_init
  | step {t t' : MerkleTreeSt} {d : ByteStr} {i : Nat} :
      DReach H t → add_node H t d = .ok (t', i) → DReach H t'

end MerkleTree

/-!
## Theorems: dense Merkle tree

Any tree with at least two leaves has tuple-valued `height` /
`leaves_counter` at its root (the `update_child` trailing commas), so
the next `add_node` dies inside `_find_split_node` evaluating
`2 ** (1,)`.  The reachable dense trees are exactly: empty, one leaf,
two leaves.
-/

lemma add_node_mt_init (H : ByteStr → ByteStr) (d : ByteStr) :
    MerkleTree.add_node H MerkleTree.mt_init d =
      .ok (MerkleTree.one_leaf H d, 0) := rfl

lemma add_node_one_leaf (H : ByteStr → ByteStr) (d1 d2 : ByteStr) :
    MerkleTree.add_node H (MerkleTree.one_leaf H d1) d2 =
      .ok (MerkleTree.two_leaves H d1 d2, 1) := rfl

lemma add_node_two_leaves (H : ByteStr → ByteStr) (d1 d2 d : ByteStr) :
    MerkleTree.add_node H (MerkleTree.two_leaves H d1 d2) d =
      .error .typeError := rfl

lemma dreach_cases {H : ByteStr → ByteStr} {t : MerkleTreeSt}
    (h : MerkleTree.DReach H t) :
    t = MerkleTree.mt_init ∨ (∃ d, t = MerkleTree.one_leaf H d) ∨
      (∃ d1 d2, t = MerkleTree.two_leaves H d1 d2) := by
  induction h with
  | init => exact Or.inl rfl
  | @step t t' d i _ hstep ih =>
    rcases ih with h0 | ⟨e, h1⟩ | ⟨e1, e2, h2⟩
    · subst h0
      rw [add_node_mt_init] at hstep
      simp only [Except.ok.injEq, Prod.mk.injEq] at hstep
      exact Or.inr (Or.inl ⟨d, hstep.1.symm⟩)
    · subst h1
      rw [add_node_one_leaf] at hstep
      simp only [Except.ok.injEq, Prod.mk.injEq] at hstep
      exact Or.inr (Or.inr ⟨e, d, hstep.1.symm⟩)
    · subst h2
      rw [add_node_two_leaves] at hstep
      simp at hstep

/-- Claim C1 (code evidence): a third `add_node` call always raises a
`TypeError` — `update_child`'s trailing commas (merkle_tree.py lines
229-230) turned the root's `height` into the 1-tuple `(1,)` during the
second insertion, so `_find_split_node` evaluating
`capacity = 2 ** (1,)` fails.  Hence the promised "validate after any
number of further insertions" cannot even insert a third leaf. -/
theorem claim_c1_third_insert_raises :
    MerkleTree.add_seq tH [[97], [98], [99]] = .error .typeError := rfl

/-- Claim C3 (code evidence): after inserting two leaves, the root's
`height` is the Python tuple `(1,)` and its `leaves_counter` the tuple
`(2,)` (trailing commas in `update_child`), so the invariant test
`leaf_count == 2 ** height` itself raises `TypeError`, and no third
insertion can attach a merge node. -/
theorem claim_c3_invariant_fields_corrupted :
    (do
      let t ← MerkleTree.add_seq tH [[97], [98]]
      let rootIdx ← match t.root with
        | some i => pure i
        | none => (.error .attributeError : Except PyErr Nat)
      let n ← MerkleTree.getNode t rootIdx
      pure (n.height, n.leaves_counter, MerkleTree.is_full n)) =
    .ok (.vtup [.vint 1], .vtup [.vint 2], .error .typeError) := rfl

/-- Claim C5 (code evidence): inserting 256 identical leaves does not
build a balanced height-8 tree; the run dies with `TypeError` at the
third insertion, for the same reason as `claim_c1_third_insert_raises`. -/
theorem claim_c5_256_inserts_raise :
    MerkleTree.add_seq tH (List.replicate 256 [55]) = .error .typeError := rfl

lemma proof_leaf_one_leaf (H : ByteStr → ByteStr) (d : ByteStr) :
    MerkleTree.proof_leaf (MerkleTree.one_leaf H d) 0 =
      .ok ⟨some (H d), [], []⟩ := rfl

set_option maxHeartbeats 2000000 in
lemma proof_leaf_two_leaves_zero (H : ByteStr → ByteStr) (d1 d2 : ByteStr) :
    MerkleTree.proof_leaf (MerkleTree.two_leaves H d1 d2) 0 =
      .ok ⟨some (H (H d1 ++ H d2)), [H d2], [.RIGHT]⟩ := rfl

set_option maxHeartbeats 2000000 in
lemma proof_leaf_two_leaves_one (H : ByteStr → ByteStr) (d1 d2 : ByteStr) :
    MerkleTree.proof_leaf (MerkleTree.two_leaves H d1 d2) 1 =
      .ok ⟨some (H (H d1 ++ H d2)), [H d1], [.LEFT]⟩ := rfl

lemma proof_leaf_out_of_range (t : MerkleTreeSt) (i : Int)
    (h : i < 0 ∨ (t.leaves.length : Int) ≤ i) :
    MerkleTree.proof_leaf t i = .error .runtimeError := by
  have hc : (decide (i < 0) || decide ((t.leaves.length : Int) ≤ i)) = true := by
    rcases h with h | h <;> simp [h]
  unfold MerkleTree.proof_leaf
  rw [hc]
  rfl

/-- Claim C9 (confirmed): on every reachable dense tree, `proof_leaf`
fails (with `RuntimeError`, no clamping and no negative-index
wraparound) exactly when the index is outside `[0, leaf_count)`, and
returns a proof for every in-range index.  The embedding of
`proof_leaf` is a pure function of the tree — matching the source
method, which assigns to nothing — so the tree state is unchanged in
both cases. -/
theorem claim_c9_proof_leaf_range {H : ByteStr → ByteStr}
    {t : MerkleTreeSt} (hr : MerkleTree.DReach H t) (i : Int) :
    (∃ e, MerkleTree.proof_leaf t i = .error e) ↔
      (i < 0 ∨ (t.leaves.length : Int) ≤ i) := by
  constructor
  · rintro ⟨e, he⟩
    by_contra hcon
    push_neg at hcon
    obtain ⟨h0, h1⟩ := hcon
    rcases dreach_cases hr with h | ⟨d, h⟩ | ⟨d1, d2, h⟩
    · subst h
      have hz : MerkleTree.mt_init.leaves.length = 0 := rfl
      rw [hz] at h1; omega
    · subst h
      obtain rfl : i = 0 := by
        have hz : (MerkleTree.one_leaf H d).leaves.length = 1 := rfl
        rw [hz] at h1; omega
      rw [proof_leaf_one_leaf] at he
      exact absurd he (by simp)
    · subst h
      have hlen : (MerkleTree.two_leaves H d1 d2).leaves.length = 2 := rfl
      have hi : i = 0 ∨ i = 1 := by rw [hlen] at h1; omega
      rcases hi with rfl | rfl
      · rw [proof_leaf_two_leaves_zero] at he
        exact absurd he (by simp)
      · rw [proof_leaf_two_leaves_one] at he
        exact absurd he (by simp)
  · intro h
    exact ⟨.runtimeError, proof_leaf_out_of_range t i h⟩

/-- Witness for `claim_c9_proof_leaf_range` on the concrete two-leaf
tree over the toy hash at the out-of-range index 5. -/
theorem claim_c9_witness :
    (∃ e, MerkleTree.proof_leaf (MerkleTree.two_leaves tH [97] [98]) 5 =
        .error e) ↔
      ((5 : Int) < 0 ∨
        ((MerkleTree.two_leaves tH [97] [98]).leaves.length : Int) ≤ 5) :=
  claim_c9_proof_leaf_range
    (MerkleTree.DReach.step
      (MerkleTree.DReach.step MerkleTree.DReach.init
        (add_node_mt_init tH [97]))
      (add_node_one_leaf tH [97] [98]))
    5

/-!
## Theorems: sparse Merkle tree
-/

/-- Claim C4 counterexample: the sparse tree built over the default
sha256 has root height `get_hash_size(sha256) = 8 * block_size = 512`,
not the 256-bit width of sha256's output digest (`8 * digest_size`):
`get_hash_size` (utils.py lines 4-10) reads `block_size`, the 64-byte
internal block size, not `digest_size`. -/
theorem claim_c4_counterexample :
    SparseMerkleTree.root_height (SparseMerkleTree.smt_init sha256) = 512 ∧
      ¬ SparseMerkleTree.root_height (SparseMerkleTree.smt_init sha256) =
          8 * sha256.digest_size := ⟨rfl, by decide⟩

/-- Claim C4 (amended): for every hash algorithm the root height — the
virtual depth and maximum proof length — equals
`get_hash_size(hash_alg) = 8 * hash_alg().block_size`, which is 512 for
the default sha256 (block size 64 bytes), not the output digest width. -/
theorem claim_c4_root_height_is_block_bits (a : HashAlg) :
    SparseMerkleTree.root_height (SparseMerkleTree.smt_init a) =
      get_hash_size a := rfl

set_option maxRecDepth 4000 in
set_option maxHeartbeats 2000000 in
/-- Claim C2 (code evidence): over an 8-bit hash, mark the valid digest
`0x01`; the distinct, never-marked valid digest `0x02` is then reported
marked (`is_marked` true) and its absence proof fails to validate
(`validate(..., False, proof)` is false) — the claim requires `False`
and `True` respectively.  `_tree_navigator` computes
`bin(int(digest, 16))[2:]`, which strips leading zero bits, and then
right-pads with zeros, so the values 1 and 2 yield the same
root-to-leaf path. -/
theorem claim_c2_never_marked_digest_reported_marked :
    (do
      let t ← SparseMerkleTree.mark tH 8 (SparseMerkleTree.create_root tH 8) 1
      let pf ← SparseMerkleTree.proof t 2 8
      let v ← SparseMerkleTree.validate tH 8 (SparseMerkleTree.tree_digest t)
        false pf
      pure (SparseMerkleTree.is_marked t 2 8, v)) = .ok (true, false) := rfl

namespace SparseMerkleTree

lemma nat_bin_rev_len :
    ∀ (fuel v k : Nat), v ≤ fuel → v < 2 ^ k →
      (nat_bin_rev fuel v).length ≤ k := by
  intro fuel
  induction fuel with
  | zero => intro v k _ _; simp [nat_bin_rev]
  | succ f ih =>
    intro v k hvf hvk
    unfold nat_bin_rev
    by_cases hv : v = 0
    · simp [hv]
    · simp only [beq_iff_eq, hv, if_false, List.length_cons]
      cases k with
      | zero => omega
      | succ k' =>
        have h1 : v / 2 ≤ f := by omega
        have h2 : v / 2 < 2 ^ k' := by
          rw [Nat.div_lt_iff_lt_mul (by omega)]
          rw [pow_succ] at hvk
          omega
        have := ih (v / 2) k' h1 h2
        omega

lemma digest_bin_len {v k : Nat} (h1 : 1 ≤ k) (h2 : v < 2 ^ k) :
    (digest_bin v).length ≤ k := by
  unfold digest_bin
  by_cases hv : v = 0
  · simp [hv]; omega
  · simp only [beq_iff_eq, hv, if_false, List.length_reverse]
    exact nat_bin_rev_len v v k le_rfl h2

lemma tree_navigator_bits_len {v B : Nat} (hB : 1 ≤ B) (hv : v < 2 ^ B) :
    (tree_navigator_bits v B).length = B := by
  unfold tree_navigator_bits
  have := digest_bin_len hB hv
  simp only [List.length_append, List.length_replicate]
  omega

lemma Wf.ne_nil {H : ByteStr → ByteStr} {n : SNode} {k : Nat}
    (h : Wf H n k) : n ≠ .nil := by
  cases h <;> simp

lemma Wf.data_some {H : ByteStr → ByteStr} {n : SNode} {k : Nat}
    (h : Wf H n k) : dataOf n = .ok (some (data_val n)) := by
  cases h <;> simp [dataOf, data_val]

lemma Wf.tree_digest_eq {H : ByteStr → ByteStr} {n : SNode} {k : Nat}
    (h : Wf H n k) : tree_digest n = some (data_val n) := by
  cases h <;> simp [tree_digest, data_val]

lemma update_data_eq {H : ByteStr → ByteStr} {l r : SNode}
    (hl : dataOf l = .ok (some (data_val l)))
    (hr : dataOf r = .ok (some (data_val r)))
    {d : Option ByteStr} {h : Nat} {dm : Bool} :
    update_data H (.node d h dm l r) =
      .ok (.node (some (H (data_val l ++ data_val r))) h dm l r) := by
  simp [update_data, hl, hr, Bind.bind, Except.bind, Pure.pure, Except.pure]

lemma vfold_append (H : ByteStr → ByteStr)
    (l1 l2 : List (Option ByteStr × Direction)) (s : ByteStr) :
    vfold H s (l1 ++ l2) =
      (vfold H s l1).bind (fun v => vfold H v l2) := by
  induction l1 generalizing s with
  | nil => simp [vfold, Except.bind]
  | cons p rest ih =>
    obtain ⟨nh, dir⟩ := p
    cases nh with
    | none => simp [vfold, Bind.bind, Except.bind]
    | some x => simp [vfold, Bind.bind, Except.bind, Pure.pure, Except.pure, ih]

end SparseMerkleTree

namespace SparseMerkleTree

lemma subtree_at_nil (q : List Direction) : subtree_at .nil q = .nil := by
  cases q <;> rfl

lemma subtree_at_left (d : Option ByteStr) (h : Nat) (dm : Bool)
    (l r : SNode) (q : List Direction) :
    subtree_at (.node d h dm l r) (Direction.LEFT :: q) = subtree_at l q := rfl

lemma subtree_at_right (d : Option ByteStr) (h : Nat) (dm : Bool)
    (l r : SNode) (q : List Direction) :
    subtree_at (.node d h dm l r) (Direction.RIGHT :: q) = subtree_at r q := rfl

lemma subtree_at_leaf_cons (d : Option ByteStr) (h : Nat) (dm : Bool)
    (c : Direction) (q : List Direction) :
    subtree_at (.node d h dm .nil .nil) (c :: q) = .nil := by
  cases c
  · rw [subtree_at_left, subtree_at_nil]
  · rw [subtree_at_right, subtree_at_nil]

lemma dataOf_some (x : ByteStr) (h : Nat) (dm : Bool) (a b : SNode) :
    dataOf (.node (some x) h dm a b) =
      .ok (some (data_val (.node (some x) h dm a b))) := rfl

lemma Wf.zero_shape {H : ByteStr → ByteStr} {l : SNode}
    (h : Wf H l 0) : ∃ dl dml, l = .node (some dl) 0 dml .nil .nil := by
  cases h <;> exact ⟨_, _, rfl⟩

lemma ok_bind {α β : Type} (a : α) (f : α → Except PyErr β) :
    (do
      let x ← (.ok a : Except PyErr α)
      f x) = f a := rfl

lemma dataOf_ok_ne_nil {l : SNode} {x : Option ByteStr}
    (h : dataOf l = .ok x) : l ≠ .nil := by
  intro he; subst he; simp [dataOf] at h

lemma mark_go_internal_last (H : ByteStr → ByteStr) (d : Option ByteStr)
    (h : Nat) (dm : Bool) {l r : SNode} (hl : l ≠ .nil) (dir : Direction) :
    mark_go H (.node d h dm l r) [dir] =
      (do
        let c' ← node_mark (pick l r dir)
        let (p1, p2) := put l r dir c'
        update_data H (.node d h dm p1 p2)) := by
  cases l with
  | nil => exact absurd rfl hl
  | node d2 h2 dm2 l2 r2 => rfl

lemma mark_go_internal_cons (H : ByteStr → ByteStr) (d : Option ByteStr)
    (h : Nat) (dm : Bool) {l r : SNode} (hl : l ≠ .nil)
    (dir dir2 : Direction) (rest2 : List Direction) :
    mark_go H (.node d h dm l r) (dir :: dir2 :: rest2) =
      (do
        let c' ← mark_go H (pick l r dir) (dir2 :: rest2)
        let (p1, p2) := put l r dir c'
        update_data H (.node d h dm p1 p2)) := by
  cases l with
  | nil => exact absurd rfl hl
  | node d2 h2 dm2 l2 r2 => rfl

lemma mark_go_single_left (H : ByteStr → ByteStr) (dn : Option ByteStr)
    (dm0 : Bool) (dl : Option ByteStr) (dml : Bool) (r : SNode)
    (hr : dataOf r = .ok (some (data_val r))) :
    mark_go H (.node dn 1 dm0 (.node dl 0 dml .nil .nil) r)
        [Direction.LEFT] =
      .ok (.node (some (H (b1 ++ data_val r))) 1 dm0
        (.node (some b1) 0 dml .nil .nil) r) := by
  rw [mark_go_internal_last H dn 1 dm0 (by simp) Direction.LEFT]
  show update_data H (.node dn 1 dm0 (.node (some b1) 0 dml .nil .nil) r) = _
  rw [update_data_eq (dataOf_some b1 0 dml .nil .nil) hr]
  rfl

lemma mark_go_single_right (H : ByteStr → ByteStr) (dn : Option ByteStr)
    (dm0 : Bool) (l : SNode) (dr : Option ByteStr) (dmr : Bool)
    (hl : dataOf l = .ok (some (data_val l))) :
    mark_go H (.node dn 1 dm0 l (.node dr 0 dmr .nil .nil))
        [Direction.RIGHT] =
      .ok (.node (some (H (data_val l ++ b1))) 1 dm0 l
        (.node (some b1) 0 dmr .nil .nil)) := by
  rw [mark_go_internal_last H dn 1 dm0 (dataOf_ok_ne_nil hl) Direction.RIGHT]
  show update_data H (.node dn 1 dm0 l (.node (some b1) 0 dmr .nil .nil)) = _
  rw [update_data_eq hl (dataOf_some b1 0 dmr .nil .nil)]
  rfl

theorem mark_go_main (H : ByteStr → ByteStr) :
    ∀ (rest : List Direction) (dir : Direction) (n : SNode),
    (Wf H n (rest.length + 1) ∨ n = placeholder (rest.length + 1)) →
    ∃ m, mark_go H n (dir :: rest) = .ok m ∧ Wf H m (rest.length + 1) ∧
      (∃ dmk, subtree_at m (dir :: rest) = .node (some b1) 0 dmk .nil .nil) ∧
      mark_go H m (dir :: rest) = .ok m ∧
      (∀ q : List Direction, ¬ q <+: (dir :: rest) →
        subtree_at m q = subtree_at n q ∨
          (subtree_at n q = .nil ∧
            subtree_at m q =
              .node (some (dummy_hash H (rest.length + 1 - q.length)))
                (rest.length + 1 - q.length) true .nil .nil)) := by
  intro rest
  induction rest with
  | nil =>
    intro dir n hpre
    have leafstep : ∀ (d0 : Option ByteStr) (dm0 : Bool),
        ∃ m, mark_go H (.node d0 1 dm0 .nil .nil) [dir] = .ok m ∧
          Wf H m ([] : List Direction).length.succ ∧
          (∃ dmk, subtree_at m [dir] = .node (some b1) 0 dmk .nil .nil) ∧
          mark_go H m [dir] = .ok m ∧
          (∀ q : List Direction, ¬ q <+: [dir] →
            subtree_at m q = subtree_at (.node d0 1 dm0 .nil .nil) q ∨
              (subtree_at (.node d0 1 dm0 .nil .nil) q = .nil ∧
                subtree_at m q =
                  .node (some (dummy_hash H
                      (([] : List Direction).length + 1 - q.length)))
                    (([] : List Direction).length + 1 - q.length)
                    true .nil .nil)) := by
      intro d0 dm0
      cases dir
      · refine ⟨_, rfl, ?_, ⟨false, rfl⟩, rfl, ?_⟩
        · exact Wf.internal dm0 (Wf.marked_leaf false) (Wf.dummy_leaf 0 true)
        · rintro (_ | ⟨c, q'⟩) hq
          · exact absurd List.nil_prefix hq
          · cases c
            · rcases q' with _ | ⟨c2, q''⟩
              · exact absurd List.prefix_rfl hq
              · left
                simp [subtree_at_left, subtree_at_leaf_cons, subtree_at_nil,
                  create_child]
            · rcases q' with _ | ⟨c2, q''⟩
              · right
                exact ⟨by simp [subtree_at_right, subtree_at_nil], by
                  simp [subtree_at_right, subtree_at, create_child]⟩
              · left
                simp [subtree_at_right, subtree_at_leaf_cons, subtree_at_nil,
                  create_child]
      · refine ⟨_, rfl, ?_, ⟨false, rfl⟩, rfl, ?_⟩
        · exact Wf.internal dm0 (Wf.dummy_leaf 0 true) (Wf.marked_leaf false)
        · rintro (_ | ⟨c, q'⟩) hq
          · exact absurd List.nil_prefix hq
          · cases c
            · rcases q' with _ | ⟨c2, q''⟩
              · right
                exact ⟨by simp [subtree_at_left, subtree_at_nil], by
                  simp [subtree_at_left, subtree_at, create_child]⟩
              · left
                simp [subtree_at_left, subtree_at_leaf_cons, subtree_at_nil,
                  create_child]
            · rcases q' with _ | ⟨c2, q''⟩
              · exact absurd List.prefix_rfl hq
              · left
                simp [subtree_at_right, subtree_at_leaf_cons, subtree_at_nil,
                  create_child]
    rcases hpre with hw | rfl
    · cases hw with
      | dummy_leaf dm0 => exact leafstep _ _
      | @internal l r k dm0 hl hr =>
        cases dir
        · obtain ⟨dl, dml, rfl⟩ := hl.zero_shape
          refine ⟨.node (some (H (b1 ++ data_val r))) 1 dm0
              (.node (some b1) 0 dml .nil .nil) r,
            mark_go_single_left H _ dm0 (some dl) dml r hr.data_some, ?_,
            ⟨dml, rfl⟩,
            mark_go_single_left H _ dm0 (some b1) dml r hr.data_some, ?_⟩
          · exact Wf.internal dm0 (Wf.marked_leaf dml) hr
          · rintro (_ | ⟨c, q'⟩) hq
            · exact absurd List.nil_prefix hq
            · cases c
              · rcases q' with _ | ⟨c2, q''⟩
                · exact absurd List.prefix_rfl hq
                · left
                  simp [subtree_at_left, subtree_at_leaf_cons]
              · left; rfl
        · obtain ⟨dr, dmr, rfl⟩ := hr.zero_shape
          refine ⟨.node (some (H (data_val l ++ b1))) 1 dm0 l
              (.node (some b1) 0 dmr .nil .nil),
            mark_go_single_right H _ dm0 l (some dr) dmr hl.data_some, ?_,
            ⟨dmr, rfl⟩,
            mark_go_single_right H _ dm0 l (some b1) dmr hl.data_some, ?_⟩
          · exact Wf.internal dm0 hl (Wf.marked_leaf dmr)
          · rintro (_ | ⟨c, q'⟩) hq
            · exact absurd List.nil_prefix hq
            · cases c
              · left; rfl
              · rcases q' with _ | ⟨c2, q''⟩
                · exact absurd List.prefix_rfl hq
                · left
                  simp [subtree_at_right, subtree_at_leaf_cons]
    · exact leafstep none false
  | cons dir2 rest2 ih =>
    intro dir n hpre
    have hnp : ∀ {c : Direction} {q' bits : List Direction},
        ¬ c :: q' <+: c :: bits → ¬ q' <+: bits :=
      fun hq hp => hq (List.cons_prefix_cons.mpr ⟨rfl, hp⟩)
    have leafstep : ∀ (d0 : Option ByteStr) (dm0 : Bool),
        ∃ m, mark_go H (.node d0 ((dir2 :: rest2).length + 1) dm0 .nil .nil)
            (dir :: dir2 :: rest2) = .ok m ∧
          Wf H m ((dir2 :: rest2).length + 1) ∧
          (∃ dmk, subtree_at m (dir :: dir2 :: rest2) =
            .node (some b1) 0 dmk .nil .nil) ∧
          mark_go H m (dir :: dir2 :: rest2) = .ok m ∧
          (∀ q : List Direction, ¬ q <+: (dir :: dir2 :: rest2) →
            subtree_at m q =
                subtree_at (.node d0 ((dir2 :: rest2).length + 1) dm0
                  .nil .nil) q ∨
              (subtree_at (.node d0 ((dir2 :: rest2).length + 1) dm0
                  .nil .nil) q = .nil ∧
                subtree_at m q =
                  .node (some (dummy_hash H
                      ((dir2 :: rest2).length + 1 - q.length)))
                    ((dir2 :: rest2).length + 1 - q.length)
                    true .nil .nil)) := by
      intro d0 dm0
      obtain ⟨mc, hmc1, hmc2, hmc3, hmc4, hmc5⟩ :=
        ih dir2 (placeholder (rest2.length + 1)) (Or.inr rfl)
      cases dir
      · -- LEFT: path child is the left placeholder, right sibling dummy
        refine ⟨.node (some (H (data_val mc ++ dummy_hash H
              (rest2.length + 1)))) ((dir2 :: rest2).length + 1) dm0 mc
            (.node (some (dummy_hash H (rest2.length + 1)))
              (rest2.length + 1) true .nil .nil), ?_, ?_, ?_, ?_, ?_⟩
        · show (do
            let c' ← mark_go H (placeholder (rest2.length + 1))
              (dir2 :: rest2)
            update_data H (.node d0 ((dir2 :: rest2).length + 1) dm0 c'
              (.node (some (dummy_hash H (rest2.length + 1)))
                (rest2.length + 1) true .nil .nil))) = _
          rw [hmc1]
          rw [ok_bind]
          exact update_data_eq hmc2.data_some (dataOf_some (dummy_hash H (rest2.length + 1)) (rest2.length + 1) true .nil .nil)
        · exact Wf.internal dm0 hmc2
            (Wf.dummy_leaf (rest2.length + 1) true)
        · obtain ⟨dmk, hdmk⟩ := hmc3
          exact ⟨dmk, by rw [subtree_at_left, hdmk]⟩
        · rw [mark_go_internal_cons H _ _ dm0 hmc2.ne_nil Direction.LEFT
            dir2 rest2]
          show (do
            let c' ← mark_go H mc (dir2 :: rest2)
            update_data H (.node _ ((dir2 :: rest2).length + 1) dm0 c'
              (.node (some (dummy_hash H (rest2.length + 1)))
                (rest2.length + 1) true .nil .nil))) = _
          rw [hmc4]
          rw [ok_bind]
          exact update_data_eq hmc2.data_some (dataOf_some (dummy_hash H (rest2.length + 1)) (rest2.length + 1) true .nil .nil)
        · rintro (_ | ⟨c, q'⟩) hq
          · exact absurd List.nil_prefix hq
          · cases c
            · rcases q' with _ | ⟨c2, q''⟩
              · exact absurd ⟨dir2 :: rest2, rfl⟩ hq
              · have hq' := hnp hq
                rcases hmc5 (c2 :: q'') hq' with hA | ⟨hBnil, hBdum⟩
                · left
                  rw [subtree_at_left, subtree_at_leaf_cons, hA,
                    placeholder, subtree_at_leaf_cons]
                · right
                  refine ⟨subtree_at_leaf_cons _ _ _ _ _, ?_⟩
                  rw [subtree_at_left, hBdum]
                  have harith : (dir2 :: rest2).length + 1 -
                      (Direction.LEFT :: c2 :: q'').length =
                      rest2.length + 1 - (c2 :: q'').length := by
                    simp
                  rw [harith]
            · rcases q' with _ | ⟨c2, q''⟩
              · right
                exact ⟨subtree_at_leaf_cons _ _ _ _ _, rfl⟩
              · left
                rw [subtree_at_right, subtree_at_leaf_cons,
                  subtree_at_leaf_cons]
      · -- RIGHT: path child is the right placeholder, left sibling dummy
        refine ⟨.node (some (H (dummy_hash H (rest2.length + 1) ++
              data_val mc))) ((dir2 :: rest2).length + 1) dm0
            (.node (some (dummy_hash H (rest2.length + 1)))
              (rest2.length + 1) true .nil .nil) mc, ?_, ?_, ?_, ?_, ?_⟩
        · show (do
            let c' ← mark_go H (placeholder (rest2.length + 1))
              (dir2 :: rest2)
            update_data H (.node d0 ((dir2 :: rest2).length + 1) dm0
              (.node (some (dummy_hash H (rest2.length + 1)))
                (rest2.length + 1) true .nil .nil) c')) = _
          rw [hmc1]
          rw [ok_bind]
          exact update_data_eq
            (dataOf_some (dummy_hash H (rest2.length + 1))
              (rest2.length + 1) true .nil .nil) hmc2.data_some
        · exact Wf.internal dm0 (Wf.dummy_leaf (rest2.length + 1) true)
            hmc2
        · obtain ⟨dmk, hdmk⟩ := hmc3
          exact ⟨dmk, by rw [subtree_at_right, hdmk]⟩
        · rw [mark_go_internal_cons H _ _ dm0 (by simp) Direction.RIGHT
            dir2 rest2]
          show (do
            let c' ← mark_go H mc (dir2 :: rest2)
            update_data H (.node _ ((dir2 :: rest2).length + 1) dm0
              (.node (some (dummy_hash H (rest2.length + 1)))
                (rest2.length + 1) true .nil .nil) c')) = _
          rw [hmc4]
          rw [ok_bind]
          exact update_data_eq
            (dataOf_some (dummy_hash H (rest2.length + 1))
              (rest2.length + 1) true .nil .nil) hmc2.data_some
        · rintro (_ | ⟨c, q'⟩) hq
          · exact absurd List.nil_prefix hq
          · cases c
            · rcases q' with _ | ⟨c2, q''⟩
              · right
                exact ⟨subtree_at_leaf_cons _ _ _ _ _, rfl⟩
              · left
                rw [subtree_at_left, subtree_at_leaf_cons,
                  subtree_at_leaf_cons]
            · rcases q' with _ | ⟨c2, q''⟩
              · exact absurd ⟨dir2 :: rest2, rfl⟩ hq
              · have hq' := hnp hq
                rcases hmc5 (c2 :: q'') hq' with hA | ⟨hBnil, hBdum⟩
                · left
                  rw [subtree_at_right, subtree_at_leaf_cons, hA,
                    placeholder, subtree_at_leaf_cons]
                · right
                  refine ⟨subtree_at_leaf_cons _ _ _ _ _, ?_⟩
                  rw [subtree_at_right, hBdum]
                  have harith : (dir2 :: rest2).length + 1 -
                      (Direction.RIGHT :: c2 :: q'').length =
                      rest2.length + 1 - (c2 :: q'').length := by
                    simp
                  rw [harith]
    rcases hpre with hw | rfl
    · cases hw with
      | dummy_leaf dm0 => exact leafstep _ _
      | @internal l r k dm0 hl hr =>
        cases dir
        · -- LEFT on an internal node: recurse into l, r untouched
          obtain ⟨mc, hmc1, hmc2, hmc3, hmc4, hmc5⟩ :=
            ih dir2 l (Or.inl hl)
          refine ⟨.node (some (H (data_val mc ++ data_val r)))
              ((dir2 :: rest2).length + 1) dm0 mc r, ?_, ?_, ?_, ?_, ?_⟩
          · rw [mark_go_internal_cons H _ _ dm0 hl.ne_nil Direction.LEFT
              dir2 rest2]
            show (do
              let c' ← mark_go H l (dir2 :: rest2)
              update_data H (.node _ ((dir2 :: rest2).length + 1) dm0 c'
                r)) = _
            rw [hmc1]
            rw [ok_bind]
            exact update_data_eq hmc2.data_some hr.data_some
          · exact Wf.internal dm0 hmc2 hr
          · obtain ⟨dmk, hdmk⟩ := hmc3
            exact ⟨dmk, by rw [subtree_at_left, hdmk]⟩
          · rw [mark_go_internal_cons H _ _ dm0 hmc2.ne_nil Direction.LEFT
              dir2 rest2]
            show (do
              let c' ← mark_go H mc (dir2 :: rest2)
              update_data H (.node _ ((dir2 :: rest2).length + 1) dm0 c'
                r)) = _
            rw [hmc4]
            rw [ok_bind]
            exact update_data_eq hmc2.data_some hr.data_some
          · rintro (_ | ⟨c, q'⟩) hq
            · exact absurd List.nil_prefix hq
            · cases c
              · rcases q' with _ | ⟨c2, q''⟩
                · exact absurd ⟨dir2 :: rest2, rfl⟩ hq
                · have hq' := hnp hq
                  rcases hmc5 (c2 :: q'') hq' with hA | ⟨hBnil, hBdum⟩
                  · left
                    rw [subtree_at_left, subtree_at_left, hA]
                  · right
                    refine ⟨by rw [subtree_at_left]; exact hBnil, ?_⟩
                    rw [subtree_at_left, hBdum]
                    have harith : (dir2 :: rest2).length + 1 -
                        (Direction.LEFT :: c2 :: q'').length =
                        rest2.length + 1 - (c2 :: q'').length := by
                      simp
                    rw [harith]
              · left; rfl
        · -- RIGHT on an internal node: recurse into r, l untouched
          obtain ⟨mc, hmc1, hmc2, hmc3, hmc4, hmc5⟩ :=
            ih dir2 r (Or.inl hr)
          refine ⟨.node (some (H (data_val l ++ data_val mc)))
              ((dir2 :: rest2).length + 1) dm0 l mc, ?_, ?_, ?_, ?_, ?_⟩
          · rw [mark_go_internal_cons H _ _ dm0 hl.ne_nil Direction.RIGHT
              dir2 rest2]
            show (do
              let c' ← mark_go H r (dir2 :: rest2)
              update_data H (.node _ ((dir2 :: rest2).length + 1) dm0 l
                c')) = _
            rw [hmc1]
            rw [ok_bind]
            exact update_data_eq hl.data_some hmc2.data_some
          · exact Wf.internal dm0 hl hmc2
          · obtain ⟨dmk, hdmk⟩ := hmc3
            exact ⟨dmk, by rw [subtree_at_right, hdmk]⟩
          · rw [mark_go_internal_cons H _ _ dm0 hl.ne_nil Direction.RIGHT
              dir2 rest2]
            show (do
              let c' ← mark_go H mc (dir2 :: rest2)
              update_data H (.node _ ((dir2 :: rest2).length + 1) dm0 l
                c')) = _
            rw [hmc4]
            rw [ok_bind]
            exact update_data_eq hl.data_some hmc2.data_some
          · rintro (_ | ⟨c, q'⟩) hq
            · exact absurd List.nil_prefix hq
            · cases c
              · left; rfl
              · rcases q' with _ | ⟨c2, q''⟩
                · exact absurd ⟨dir2 :: rest2, rfl⟩ hq
                · have hq' := hnp hq
                  rcases hmc5 (c2 :: q'') hq' with hA | ⟨hBnil, hBdum⟩
                  · left
                    rw [subtree_at_right, subtree_at_right, hA]
                  · right
                    refine ⟨by rw [subtree_at_right]; exact hBnil, ?_⟩
                    rw [subtree_at_right, hBdum]
                    have harith : (dir2 :: rest2).length + 1 -
                        (Direction.RIGHT :: c2 :: q'').length =
                        rest2.length + 1 - (c2 :: q'').length := by
                      simp
                    rw [harith]
    · exact leafstep none false

end SparseMerkleTree

namespace SparseMerkleTree

lemma mark_ok {H : ByteStr → ByteStr} {B : Nat} (hB : 1 ≤ B) {t : SNode}
    (hw : Wf H t B) {v : Nat} (hv : v < 2 ^ B) :
    ∃ m, mark H B t v = .ok m ∧ Wf H m B ∧
      (∃ dmk, subtree_at m (tree_navigator_bits v B) =
        .node (some b1) 0 dmk .nil .nil) ∧
      mark H B m v = .ok m ∧
      (∀ q : List Direction, ¬ q <+: tree_navigator_bits v B →
        subtree_at m q = subtree_at t q ∨
          (subtree_at t q = .nil ∧
            subtree_at m q =
              .node (some (dummy_hash H (B - q.length)))
                (B - q.length) true .nil .nil)) := by
  have hlen := tree_navigator_bits_len hB hv
  rcases hbits : tree_navigator_bits v B with _ | ⟨dir, rest⟩
  · rw [hbits] at hlen; simp at hlen; omega
  · rw [hbits] at hlen
    simp only [List.length_cons] at hlen
    subst hlen
    simp only [mark]
    rw [hbits]
    exact mark_go_main H rest dir t (Or.inl hw)

lemma reach_wf {H : ByteStr → ByteStr} {B : Nat} (hB : 1 ≤ B) {t : SNode}
    (h : Reach H B t) : Wf H t B := by
  induction h with
  | init => exact Wf.dummy_leaf B true
  | mark hr hv hm ih =>
    obtain ⟨m, hm', hwf, -⟩ := mark_ok hB ih hv
    rw [hm'] at hm
    obtain rfl := (Except.ok.injEq _ _).mp hm
    exact hwf


lemma is_marked_go_of_marked {H : ByteStr → ByteStr} :
    ∀ (bits : List Direction) (n : SNode), Wf H n bits.length →
    (∃ dmk, subtree_at n bits = .node (some b1) 0 dmk .nil .nil) →
    bits ≠ [] → is_marked_go n bits = true := by
  intro bits
  induction bits with
  | nil => intro n _ _ hne; exact absurd rfl hne
  | cons dir rest ih =>
    intro n hw hmk _
    cases hw with
    | dummy_leaf dm0 =>
      obtain ⟨dmk, hdmk⟩ := hmk
      rw [subtree_at_leaf_cons] at hdmk
      exact absurd hdmk (by simp)
    | @internal l r k dm0 hl hr =>
      obtain ⟨dmk, hdmk⟩ := hmk
      cases dir
      · rw [subtree_at_left] at hdmk
        cases rest with
        | nil =>
          simp only [subtree_at] at hdmk
          subst hdmk
          simp [is_marked_go, pick]
        | cons dir2 rest2 =>
          have hlm := ih l hl ⟨dmk, hdmk⟩ (by simp)
          cases hln : l with
          | nil => exact absurd hln hl.ne_nil
          | node l1 l2 l3 l4 l5 =>
            rw [hln] at hlm
            show is_marked_go (.node l1 l2 l3 l4 l5) (dir2 :: rest2) = true
            exact hlm
      · rw [subtree_at_right] at hdmk
        cases rest with
        | nil =>
          simp only [subtree_at] at hdmk
          subst hdmk
          simp [is_marked_go, pick]
        | cons dir2 rest2 =>
          have hrm := ih r hr ⟨dmk, hdmk⟩ (by simp)
          cases hrn : r with
          | nil => exact absurd hrn hr.ne_nil
          | node r1 r2 r3 r4 r5 =>
            rw [hrn] at hrm
            show is_marked_go (.node r1 r2 r3 r4 r5) (dir2 :: rest2) = true
            exact hrm

lemma proof_validates {H : ByteStr → ByteStr} :
    ∀ (bits : List Direction) (n : SNode), Wf H n bits.length →
    (∃ dmk, subtree_at n bits = .node (some b1) 0 dmk .nil .nil) →
    ∃ pf, proof_go n bits = .ok pf ∧ vfold H b1 pf = .ok (data_val n) := by
  intro bits
  induction bits with
  | nil =>
    intro n _ hmk
    obtain ⟨dmk, hdmk⟩ := hmk
    simp only [subtree_at] at hdmk
    subst hdmk
    exact ⟨[], rfl, by simp [vfold, data_val]⟩
  | cons dir rest ih =>
    intro n hw hmk
    cases hw with
    | dummy_leaf dm0 =>
      obtain ⟨dmk, hdmk⟩ := hmk
      rw [subtree_at_leaf_cons] at hdmk
      exact absurd hdmk (by simp)
    | @internal l r k dm0 hl hr =>
      obtain ⟨dmk, hdmk⟩ := hmk
      cases dir
      · rw [subtree_at_left] at hdmk
        obtain ⟨pfc, hpf1, hpf2⟩ := ih l hl ⟨dmk, hdmk⟩
        refine ⟨pfc ++ [(some (data_val r), Direction.RIGHT)], ?_, ?_⟩
        · cases hln : l with
          | nil => exact absurd hln hl.ne_nil
          | node l1 l2 l3 l4 l5 =>
            rw [hln] at hpf1
            show (do
              let sd ← dataOf r
              let ps ← proof_go (.node l1 l2 l3 l4 l5) rest
              (.ok (ps ++ [(sd, Direction.RIGHT)]) :
                Except PyErr (List (Option ByteStr × Direction)))) = _
            rw [hr.data_some, ok_bind, hpf1, ok_bind]
        · rw [vfold_append, hpf2]
          simp [vfold, data_val, Except.bind]
      · rw [subtree_at_right] at hdmk
        obtain ⟨pfc, hpf1, hpf2⟩ := ih r hr ⟨dmk, hdmk⟩
        refine ⟨pfc ++ [(some (data_val l), Direction.LEFT)], ?_, ?_⟩
        · cases hln : l with
          | nil => exact absurd hln hl.ne_nil
          | node l1 l2 l3 l4 l5 =>
            show (do
              let sd ← dataOf (.node l1 l2 l3 l4 l5)
              let ps ← proof_go r rest
              (.ok (ps ++ [(sd, Direction.LEFT)]) :
                Except PyErr (List (Option ByteStr × Direction)))) = _
            rw [show dataOf (SNode.node l1 l2 l3 l4 l5) =
                .ok (some (data_val l)) from hln ▸ hl.data_some,
              ok_bind, hpf1, ok_bind, hln]
        · rw [vfold_append, hpf2]
          simp [vfold, data_val, Except.bind]


lemma mark_preserves_marked {H : ByteStr → ByteStr} {B : Nat} (hB : 1 ≤ B)
    {t t' : SNode} (hw : Wf H t B) {v : Nat} (hv : v < 2 ^ B)
    (hm : mark H B t v = .ok t') {q : List Direction} (hq : q.length = B)
    (hmk : ∃ dmk, subtree_at t q = .node (some b1) 0 dmk .nil .nil) :
    ∃ dmk, subtree_at t' q = .node (some b1) 0 dmk .nil .nil := by
  obtain ⟨m, hm1, -, hm3, -, hm5⟩ := mark_ok hB hw hv
  rw [hm1] at hm
  obtain rfl := (Except.ok.injEq _ _).mp hm
  by_cases hqe : q = tree_navigator_bits v B
  · subst hqe; exact hm3
  · have hnp : ¬ q <+: tree_navigator_bits v B := by
      intro hp
      exact hqe (hp.eq_of_length
        (by rw [hq, tree_navigator_bits_len hB hv]))
    rcases hm5 q hnp with hA | ⟨hBn, -⟩
    · rw [hA]; exact hmk
    · obtain ⟨dmk, hdmk⟩ := hmk
      rw [hBn] at hdmk
      exact absurd hdmk (by simp)

lemma mark_seq_go {H : ByteStr → ByteStr} {B : Nat} (hB : 1 ≤ B) :
    ∀ (ds : List Nat) (t0 t : SNode), Wf H t0 B →
    (∀ v ∈ ds, v < 2 ^ B) →
    ds.foldlM (fun t v => mark H B t v) t0 = .ok t →
    Wf H t B ∧
    (∀ q : List Direction, q.length = B →
      (∃ dmk, subtree_at t0 q = .node (some b1) 0 dmk .nil .nil) →
      (∃ dmk, subtree_at t q = .node (some b1) 0 dmk .nil .nil)) ∧
    (∀ v ∈ ds, ∃ dmk, subtree_at t (tree_navigator_bits v B) =
      .node (some b1) 0 dmk .nil .nil) := by
  intro ds
  induction ds with
  | nil =>
    intro t0 t hw _ hf
    simp only [List.foldlM_nil] at hf
    obtain rfl : t0 = t := (Except.ok.injEq t0 t).mp hf
    exact ⟨hw, fun q _ h => h, by simp⟩
  | cons v ds ihds =>
    intro t0 t hw hvs hf
    rw [List.foldlM_cons] at hf
    obtain ⟨m, hm1, hwm, hm3, -, -⟩ := mark_ok hB hw (hvs v (by simp))
    rw [hm1, ok_bind] at hf
    obtain ⟨hwt, hpres, hall⟩ := ihds m t hwm
      (fun u hu => hvs u (by simp [hu])) hf
    refine ⟨hwt, ?_, ?_⟩
    · intro q hq hmk
      exact hpres q hq
        (mark_preserves_marked hB hw (hvs v (by simp)) hm1 hq hmk)
    · intro u hu
      rcases List.mem_cons.mp hu with rfl | hu2
      · exact hpres _ (tree_navigator_bits_len hB (hvs u (by simp))) hm3
      · exact hall u hu2

end SparseMerkleTree

/-- Claim C6 (confirmed): after any finite sequence of `mark` calls of
valid digests on a fresh sparse tree, every digest `d` in the sequence
satisfies `is_marked(d) = True`, and
`validate(tree_digest, True, proof(d))` returns `True` for the tree's
current root digest. -/
theorem claim_c6_marked_digests (H : ByteStr → ByteStr) (B : Nat)
    (hB : 1 ≤ B) (ds : List Nat) (hds : ∀ v ∈ ds, v < 2 ^ B) (t : SNode)
    (ht : SparseMerkleTree.mark_seq H B ds = .ok t) (d : Nat)
    (hd : d ∈ ds) :
    SparseMerkleTree.is_marked t d B = true ∧
    (do
      let pf ← SparseMerkleTree.proof t d B
      SparseMerkleTree.validate H B (SparseMerkleTree.tree_digest t) true
        pf) = .ok true := by
  obtain ⟨hwt, -, hall⟩ := SparseMerkleTree.mark_seq_go hB ds _ t
    (SparseMerkleTree.Wf.dummy_leaf B true) hds ht
  have hmk := hall d hd
  have hlen := SparseMerkleTree.tree_navigator_bits_len hB (hds d hd)
  constructor
  · exact SparseMerkleTree.is_marked_go_of_marked _ t
      (by rw [hlen]; exact hwt) hmk
      (by intro hbn; rw [hbn] at hlen; simp at hlen; omega)
  · obtain ⟨pf, hp1, hp2⟩ := SparseMerkleTree.proof_validates _ t
      (by rw [hlen]; exact hwt) hmk
    show (do
      let pf ← SparseMerkleTree.proof_go t
        (SparseMerkleTree.tree_navigator_bits d B)
      SparseMerkleTree.validate H B (SparseMerkleTree.tree_digest t) true
        pf) = .ok true
    rw [hp1, SparseMerkleTree.ok_bind]
    show (do
      let vh ← SparseMerkleTree.vfold H b1 pf
      (pure (some vh == SparseMerkleTree.tree_digest t) :
        Except PyErr Bool)) = .ok true
    rw [hp2, SparseMerkleTree.ok_bind, hwt.tree_digest_eq]
    simp [pure, Except.pure]

/-- Witness for `claim_c6_marked_digests`: the 2-bit toy tree with the
single digest value 1 marked. -/
theorem claim_c6_witness :
    SparseMerkleTree.is_marked
        (SparseMerkleTree.okD (SparseMerkleTree.mark_seq tH 2 [1])) 1 2 =
      true ∧
    (do
      let pf ← SparseMerkleTree.proof
        (SparseMerkleTree.okD (SparseMerkleTree.mark_seq tH 2 [1])) 1 2
      SparseMerkleTree.validate tH 2
        (SparseMerkleTree.tree_digest
          (SparseMerkleTree.okD (SparseMerkleTree.mark_seq tH 2 [1])))
        true pf) = .ok true :=
  claim_c6_marked_digests tH 2 (by decide) [1] (by decide)
    (SparseMerkleTree.okD (SparseMerkleTree.mark_seq tH 2 [1])) rfl 1
    (by decide)

/-- Claim C7 (confirmed): on every reachable sparse tree, marking a
valid digest twice yields exactly the same tree (hence the same
`tree_digest` and the same observable state) as marking it once. -/
theorem claim_c7_mark_idempotent (H : ByteStr → ByteStr) (B : Nat)
    (hB : 1 ≤ B) (t : SNode) (hr : SparseMerkleTree.Reach H B t) (v : Nat)
    (hv : v < 2 ^ B) (t' : SNode)
    (hm : SparseMerkleTree.mark H B t v = .ok t') :
    SparseMerkleTree.mark H B t' v = .ok t' := by
  obtain ⟨m, hm1, -, -, hm4, -⟩ :=
    SparseMerkleTree.mark_ok hB (SparseMerkleTree.reach_wf hB hr) hv
  rw [hm1] at hm
  obtain rfl := (Except.ok.injEq _ _).mp hm
  exact hm4

/-- Witness for `claim_c7_mark_idempotent`: remarking digest value 1 on
the 2-bit toy tree returns the same tree. -/
theorem claim_c7_witness :
    SparseMerkleTree.mark tH 2
        (SparseMerkleTree.okD
          (SparseMerkleTree.mark tH 2 (SparseMerkleTree.create_root tH 2)
            1)) 1 =
      .ok (SparseMerkleTree.okD
        (SparseMerkleTree.mark tH 2 (SparseMerkleTree.create_root tH 2)
          1)) :=
  claim_c7_mark_idempotent tH 2 (by decide) _ SparseMerkleTree.Reach.init
    1 (by decide) _ rfl

/-- Claim C8 (confirmed): on every reachable sparse tree, marking a
valid digest succeeds — in particular the node-level `mark()` is always
invoked on a height-0 node, so
`InternalNodeCannotBeMarkedException` is never raised. -/
theorem claim_c8_mark_succeeds (H : ByteStr → ByteStr) (B : Nat)
    (hB : 1 ≤ B) (t : SNode) (hr : SparseMerkleTree.Reach H B t) (v : Nat)
    (hv : v < 2 ^ B) :
    ∃ t', SparseMerkleTree.mark H B t v = .ok t' := by
  obtain ⟨m, hm1, -⟩ :=
    SparseMerkleTree.mark_ok hB (SparseMerkleTree.reach_wf hB hr) hv
  exact ⟨m, hm1⟩

/-- Witness for `claim_c8_mark_succeeds` on the fresh 2-bit toy tree. -/
theorem claim_c8_witness :
    ∃ t', SparseMerkleTree.mark tH 2 (SparseMerkleTree.create_root tH 2)
      1 = .ok t' :=
  claim_c8_mark_succeeds tH 2 (by decide) _ SparseMerkleTree.Reach.init 1
    (by decide)

/-- Claim C10 (confirmed, frame property): `mark(d)` on a reachable
sparse tree leaves every subtree at a position that is not a prefix of
`d`'s navigation path either exactly as it was, or — when it was
unmaterialized and is a freshly created sibling — a dummy leaf holding
the cached default digest for its height `B - |q|`. -/
theorem claim_c10_mark_frame (H : ByteStr → ByteStr) (B : Nat)
    (hB : 1 ≤ B) (t : SNode) (hr : SparseMerkleTree.Reach H B t) (v : Nat)
    (hv : v < 2 ^ B) (t' : SNode)
    (hm : SparseMerkleTree.mark H B t v = .ok t') (q : List Direction)
    (hq : ¬ q <+: SparseMerkleTree.tree_navigator_bits v B) :
    SparseMerkleTree.subtree_at t' q = SparseMerkleTree.subtree_at t q ∨
      (SparseMerkleTree.subtree_at t q = .nil ∧
        SparseMerkleTree.subtree_at t' q =
          .node (some (SparseMerkleTree.dummy_hash H (B - q.length)))
            (B - q.length) true .nil .nil) := by
  obtain ⟨m, hm1, -, -, -, hm5⟩ :=
    SparseMerkleTree.mark_ok hB (SparseMerkleTree.reach_wf hB hr) hv
  rw [hm1] at hm
  obtain rfl := (Except.ok.injEq _ _).mp hm
  exact hm5 q hq

/-- Witness for `claim_c10_mark_frame`: marking digest value 1 on the
2-bit toy tree does not touch position RIGHT-RIGHT. -/
theorem claim_c10_witness :
    SparseMerkleTree.subtree_at
        (SparseMerkleTree.okD
          (SparseMerkleTree.mark tH 2 (SparseMerkleTree.create_root tH 2)
            1)) [Direction.RIGHT, Direction.RIGHT] =
      SparseMerkleTree.subtree_at (SparseMerkleTree.create_root tH 2)
        [Direction.RIGHT, Direction.RIGHT] ∨
    (SparseMerkleTree.subtree_at (SparseMerkleTree.create_root tH 2)
        [Direction.RIGHT, Direction.RIGHT] = .nil ∧
      SparseMerkleTree.subtree_at
          (SparseMerkleTree.okD
            (SparseMerkleTree.mark tH 2
              (SparseMerkleTree.create_root tH 2) 1))
          [Direction.RIGHT, Direction.RIGHT] =
        .node (some (SparseMerkleTree.dummy_hash tH
            (2 - [Direction.RIGHT, Direction.RIGHT].length)))
          (2 - [Direction.RIGHT, Direction.RIGHT].length) true
          .nil .nil) :=
  claim_c10_mark_frame tH 2 (by decide) _ SparseMerkleTree.Reach.init 1
    (by decide) _ rfl [Direction.RIGHT, Direction.RIGHT] (by decide)
